import Mathlib

/-!
Verification development for the declarative JSON extraction engine
(`JSONExtractor`, `app/utils/json_extractor.py`).

The Python code is embedded shallowly: JSON values become an inductive
type, Python dicts become ordered association lists with the Python
insertion/update semantics, and every method of the class becomes a pure
Lean function translated line by line from the source.  The `re.search`
regex matcher is an external library call and is threaded through as an
abstract parameter `regexSearch : String → String → Bool`; concrete theorems
instantiate it with a literal-substring matcher.  The `jmespath` library
is likewise external; it is modelled on the dot-separated identifier
paths that the rule sets use (see `jmes_search`).
-/

namespace JSONExtractor

/-- JSON-compatible Python values: None, bool, number, string, list, dict
(dicts are ordered association lists, as Python dicts preserve insertion
order). -/
inductive JSON where
  | null : JSON
  | bool (b : Bool) : JSON
  | num (n : Int) : JSON
  | str (s : String) : JSON
  | arr (items : List JSON) : JSON
  | obj (entries : List (String × JSON)) : JSON
deriving Repr

/-- Python `d[k]` / `d.get(k)`: first (and in a real dict, only) binding. -/
def dictGet (k : String) (d : List (String × JSON)) : Option JSON :=
  (d.find? (fun p => p.1 == k)).map Prod.snd

/-- Python `k in d` on a dict. -/
def dictMem (k : String) (d : List (String × JSON)) : Bool :=
  d.any (fun p => p.1 == k)

/-- Python `d[k] = v`: replace in place if the key exists (keeping its
position), otherwise append at the end. -/
def dictInsert (k : String) (v : JSON) (d : List (String × JSON)) :
    List (String × JSON) :=
  if dictMem k d then d.map (fun p => if p.1 == k then (k, v) else p)
  else d ++ [(k, v)]

/-- Python `d.update(e)`: apply each binding of `e` in order. -/
def dictUpdate (d e : List (String × JSON)) : List (String × JSON) :=
  e.foldl (fun acc p => dictInsert p.1 p.2 acc) d

/-- The first occurrence of the (nonempty) separator `sep` in `s`: the
part before it and the part after it, or `none` when `sep` does not
occur. -/
def splitFirst (sep : List Char) : List Char → Option (List Char × List Char)
  | [] => none
  | c :: rest =>
    if List.isPrefixOf sep (c :: rest) then some ([], (c :: rest).drop sep.length)
    else
      match splitFirst sep rest with
      | some p => some (c :: p.1, p.2)
      | none => none

/-- Splitting loop with fuel (one unit per split; `length + 1` is always
enough for a nonempty separator, each split consuming at least one
character). -/
def splitAllGo (sep : List Char) : Nat → List Char → List (List Char)
  | 0, s => [s]
  | Nat.succ n, s =>
    match splitFirst sep s with
    | some p => p.1 :: splitAllGo sep n p.2
    | none => [s]

/-- Python `s.split(sep)` for a nonempty separator (the extractor only
splits on `"."` and `"[*]."`). -/
def strSplit (s sep : String) : List String :=
  (splitAllGo sep.data (s.data.length + 1) s.data).map String.mk

/-- Replacement loop with fuel, non-overlapping and left to right as
Python `str.replace` is. -/
def strReplaceGo (sep repl : List Char) : Nat → List Char → List Char
  | 0, s => s
  | Nat.succ n, s =>
    match splitFirst sep s with
    | some p => p.1 ++ repl ++ strReplaceGo sep repl n p.2
    | none => s

/-- Python `s.replace(sep, repl)` for a nonempty `sep` (the extractor
only erases `"[*]"`). -/
def strReplace (s sep repl : String) : String :=
  String.mk (strReplaceGo sep.data repl.data (s.data.length + 1) s.data)

/-- Python `sub in s` substring test (for the nonempty needles the
extractor uses). -/
def hasSubstr (sub s : String) : Bool :=
  (splitFirst sub.data s.data).isSome

/-- Python `s.split(sep, 1)`: split at the first occurrence only (the
source destructures the result into two parts after checking the
separator occurs; when it does not, the second part is empty here). -/
def splitOnce (s sep : String) : String × String :=
  match splitFirst sep.data s.data with
  | some p => (String.mk p.1, String.mk p.2)
  | none => (s, "")

/-- Python list slice `xs[:n]` (negative `n` counts from the end). -/
def pythonTake (n : Int) (xs : List JSON) : List JSON :=
  if 0 ≤ n then xs.take n.toNat
  else xs.take (xs.length - (-n).toNat)

/-- Models the `jmespath` library on dot-separated identifier paths (the
only non-wildcard path shape the rule sets use): walk the keys, yielding
`JSON.null` when a step is missing or hits a non-object, matching the
`None` result of the Python binding. -/
def jmesSearchKeys : List String → JSON → JSON
  | [], v => v
  | k :: ks, JSON.obj entries =>
    match dictGet k entries with
    | some v => jmesSearchKeys ks v
    | none => JSON.null
  | _ :: _, _ => JSON.null

/-- Models `jmespath.compile(path).search(v)` for dot-separated identifier
paths. -/
def jmes_search (path : String) (v : JSON) : JSON :=
  jmesSearchKeys (strSplit path ".") v

mutual

/-- Embeds `_cleanup_nulls`: recursively strip dict entries and list elements
whose value is `None`, filtering before recursing, as the comprehensions
in the source do. -/
def cleanup_nulls : JSON → JSON
  | JSON.obj entries => JSON.obj (cleanupObj entries)
  | JSON.arr items => JSON.arr (cleanupArr items)
  | v => v

/-- The dict comprehension of `_cleanup_nulls`. -/
def cleanupObj : List (String × JSON) → List (String × JSON)
  | [] => []
  | (k, v) :: rest =>
    match v with
    | JSON.null => cleanupObj rest
    | v => (k, cleanup_nulls v) :: cleanupObj rest

/-- The list comprehension of `_cleanup_nulls`. -/
def cleanupArr : List JSON → List JSON
  | [] => []
  | x :: rest =>
    match x with
    | JSON.null => cleanupArr rest
    | x => cleanup_nulls x :: cleanupArr rest

end

/-- A field spec inside a `fields` directive: a plain string (possibly a
wildcard path) or a nested `{field: [subfields]}` dict.  A dict spec can
carry several entries, as a Python dict can. -/
inductive FieldSpec where
  | fname (s : String) : FieldSpec
  | fnested (entries : List (String × List String)) : FieldSpec

/-- A rule instruction.  `dirI` is a Python dict instruction, split into
its five recognised directive entries (each optional, `none` = key
absent) plus the remaining entries in order, which act as sub-rules.
`listI` is a list-of-field-names instruction (used for sub-rules);
`strI` is a bare string; `boolI` a bare boolean. -/
inductive Instruction where
  | boolI (b : Bool) : Instruction
  | strI (s : String) : Instruction
  | listI (fields : List String) : Instruction
  | dirI (fields : Option (List FieldSpec)) (limit : Option Int)
      (regex : Option String) (dflt : Option JSON)
      (filt : Option (JSON → Bool))
      (subRules : List (String × Instruction)) : Instruction

/-- The `fields` entry of a dict instruction, if any. -/
def Instruction.fieldsOf : Instruction → Option (List FieldSpec)
  | .dirI f _ _ _ _ _ => f
  | _ => none

/-- Embeds `_is_mixed_instruction`: a dict containing `fields` and at least one
key outside `{fields, limit, regex, default, filter}`. -/
def is_mixed_instruction : Instruction → Bool
  | .dirI f _ _ _ _ sr => f.isSome && !sr.isEmpty
  | _ => false

/-- Embeds `_is_simple_instruction`: a dict containing at least one of the five
directive keys. -/
def is_simple_instruction : Instruction → Bool
  | .dirI f l r d fp _ => f.isSome || l.isSome || r.isSome || d.isSome || fp.isSome
  | _ => false

/-- Whether the instruction is a Python dict (`isinstance(instruction, dict)`). -/
def is_dict_instruction : Instruction → Bool
  | .dirI _ _ _ _ _ _ => true
  | _ => false

/-- Membership in `self._compiled`: every rule key except `"."`/`"@"`
whose instruction is not mixed is precompiled at construction. -/
def is_compiled (rules : List (String × Instruction)) (path : String) : Bool :=
  path != "." && path != "@" &&
    (match rules.find? (fun p => p.1 == path) with
     | some p => !is_mixed_instruction p.2
     | none => false)

/-- The key-naming rule shared by `_extract_wildcard_field` and the
wildcard branch of `_extract_fields_from_array`. -/
def wildcard_clean_name (arrayField targetField : String) : String :=
  if targetField == "name" then arrayField else arrayField ++ "_" ++ targetField

/-- The element comprehension shared by `_extract_wildcard_field` and
`_extract_fields_from_array`: each array element that is a dict and has
the target field contributes its value. -/
def wildcard_extracted_values (xs : List JSON) (targetField : String) : List JSON :=
  xs.filterMap (fun x =>
    match x with
    | JSON.obj entries => dictGet targetField entries
    | _ => none)

/-- Embeds `_extract_wildcard_field`. -/
def extract_wildcard_field (item : List (String × JSON)) (wildcardPath : String)
    (target : List (String × JSON)) : List (String × JSON) :=
  let p := splitOnce wildcardPath "[*]."
  match dictGet p.1 item with
  | some (JSON.arr xs) =>
    dictInsert (wildcard_clean_name p.1 p.2)
      (JSON.arr (wildcard_extracted_values xs p.2)) target
  | _ => target

/-- The dict comprehension `{field: value[field] for field in fields if
field in value}` of `_process_dict_value`; a non-string field spec would
raise `TypeError` in the source (`field in value` on an unhashable key)
and never occurs in a rule set, so it contributes nothing here. -/
def project_field_specs (entries : List (String × JSON)) (fields : List FieldSpec) :
    List (String × JSON) :=
  fields.foldl (fun acc f =>
    match f with
    | .fname s =>
      match dictGet s entries with
      | some v => dictInsert s v acc
      | none => acc
    | .fnested _ => acc) []

/-- The dict comprehension `{sf: obj[sf] for sf in subfields if sf in obj}`
used for nested field specs and `_extract_fields_from_object`. -/
def project_string_fields (entries : List (String × JSON)) (fields : List String) :
    List (String × JSON) :=
  fields.foldl (fun acc s =>
    match dictGet s entries with
    | some v => dictInsert s v acc
    | none => acc) []

/-- Embeds `_process_dict_value`. -/
def process_dict_value (entries : List (String × JSON))
    (fields : Option (List FieldSpec)) : JSON :=
  match fields with
  | some fs => JSON.obj (project_field_specs entries fs)
  | none => JSON.obj entries

/-- One `field_spec` iteration of `_extract_fields_from_array`, updating
the `extracted` dict built for one array element. -/
def apply_field_spec (item : List (String × JSON))
    (extracted : List (String × JSON)) : FieldSpec → List (String × JSON)
  | .fnested specEntries =>
    specEntries.foldl (fun acc p =>
      match dictGet p.1 item with
      | some (JSON.obj sub) =>
        dictInsert p.1 (JSON.obj (project_string_fields sub p.2)) acc
      | some v => dictInsert p.1 v acc
      | none => acc) extracted
  | .fname s =>
    if hasSubstr "[*]." s then
      let p := splitOnce s "[*]."
      match dictGet p.1 item with
      | some (JSON.arr xs) =>
        dictInsert (wildcard_clean_name p.1 p.2)
          (JSON.arr (wildcard_extracted_values xs p.2)) extracted
      | _ => extracted
    else
      match dictGet s item with
      | some v => dictInsert s v extracted
      | none => extracted

/-- Embeds `_extract_fields_from_array`: dict elements are projected through the
field specs, non-dict elements pass through unchanged, order preserved. -/
def extract_fields_from_array (array : List JSON) (fields : List FieldSpec) :
    List JSON :=
  array.map (fun itm =>
    match itm with
    | JSON.obj entries => JSON.obj (fields.foldl (apply_field_spec entries) [])
    | other => other)

/-- Embeds `_process_array_value`: regex filter, then custom filter, then limit,
then fields projection, in the fixed order of the source. -/
def process_array_value (regexSearch : String → String → Bool) (value : List JSON)
    (fields : Option (List FieldSpec)) (limit : Option Int)
    (regex : Option String) (filt : Option (JSON → Bool)) : List JSON :=
  let p1 :=
    match regex with
    | some pat =>
      value.filter (fun x =>
        match x with
        | JSON.str s => regexSearch pat s
        | _ => false)
    | none => value
  let p2 :=
    match filt with
    | some f => p1.filter f
    | none => p1
  let p3 :=
    match limit with
    | some n => pythonTake n p2
    | none => p2
  match fields with
  | some fs => extract_fields_from_array p3 fs
  | none => p3

/-- Embeds `_process_value`. -/
def process_value (regexSearch : String → String → Bool) (value : JSON)
    (ins : Instruction) : JSON :=
  match ins with
  | .dirI fields limit regex _ filt _ =>
    let regexFail :=
      match regex, value with
      | some pat, JSON.str s => !(regexSearch pat s)
      | _, _ => false
    if regexFail then JSON.null
    else
      match value with
      | JSON.obj entries => process_dict_value entries fields
      | JSON.arr items =>
        JSON.arr (process_array_value regexSearch items fields limit regex filt)
      | v => v
  | _ => value

/-- Embeds `_extract_fields_from_object` (the caller has checked `sub_path in
item`, so the `none` case is unreachable). -/
def extract_fields_from_object (item : List (String × JSON)) (subPath : String)
    (fields : List String) (target : List (String × JSON)) :
    List (String × JSON) :=
  match dictGet subPath item with
  | some (JSON.obj entries) =>
    dictInsert subPath (JSON.obj (project_string_fields entries fields)) target
  | some v => dictInsert subPath v target
  | none => target

/-- Embeds `_apply_sub_rule_to_item`. -/
def apply_sub_rule_to_item (regexSearch : String → String → Bool)
    (item : List (String × JSON)) (subPath : String) (subIns : Instruction)
    (target : List (String × JSON)) : List (String × JSON) :=
  if hasSubstr "[*]." subPath then extract_wildcard_field item subPath target
  else
    match dictGet subPath item with
    | none => target
    | some v =>
      match subIns with
      | .dirI _ _ _ _ _ _ =>
        dictInsert subPath (process_value regexSearch v subIns) target
      | .listI fields => extract_fields_from_object item subPath fields target
      | .boolI true => dictInsert subPath v target
      | _ => target

/-- Embeds `_merge_array_output`: walk the existing output list; at each index,
merge dict-with-dict via `dict.update`, otherwise take the new item when
one exists, otherwise keep the existing one (extra new items beyond the
existing length are dropped). -/
def merge_array_output (output : List (String × JSON)) (parentPath : String)
    (newItems : List JSON) : List (String × JSON) :=
  match dictGet parentPath output with
  | some (JSON.arr existing) =>
    let merged := existing.enum.map (fun p =>
      match newItems[p.1]?, p.2 with
      | some (JSON.obj nk), JSON.obj ek => JSON.obj (dictUpdate ek nk)
      | some ni, _ => ni
      | none, ex => ex)
    dictInsert parentPath (JSON.arr merged) output
  | _ => dictInsert parentPath (JSON.arr newItems) output

/-- Embeds `_process_array_sub_rule`: per dict element, start from the already
processed element at the same index of the existing output list (the
source copies it with `dict(...)`; a non-dict there would raise
`TypeError`, which no rule set reaches, so it contributes the empty
dict), apply the sub-rule, and merge positionally. -/
def process_array_sub_rule (regexSearch : String → String → Bool)
    (arrayValue : List JSON) (subPath : String) (subIns : Instruction)
    (output : List (String × JSON)) (parentPath : String) :
    List (String × JSON) :=
  let existing : Option (List JSON) :=
    match dictGet parentPath output with
    | some (JSON.arr ys) => some ys
    | _ => none
  let newItems := arrayValue.enum.map (fun p =>
    match p.2 with
    | JSON.obj entries =>
      let newItem :=
        match existing with
        | some ys =>
          match ys[p.1]? with
          | some (JSON.obj e) => e
          | _ => []
        | none => []
      JSON.obj (apply_sub_rule_to_item regexSearch entries subPath subIns newItem)
    | other => other)
  merge_array_output output parentPath newItems

/-- Embeds `_process_dict_sub_rule` (an existing non-dict value at the parent key
would make the source raise on assignment; unreachable, the mixed
processing has just seeded a dict there). -/
def process_dict_sub_rule (regexSearch : String → String → Bool)
    (dictValue : List (String × JSON)) (subPath : String) (subIns : Instruction)
    (output : List (String × JSON)) (parentPath : String) :
    List (String × JSON) :=
  let cur :=
    match dictGet parentPath output with
    | some v => v
    | none => JSON.obj []
  match cur with
  | JSON.obj t =>
    dictInsert parentPath
      (JSON.obj (apply_sub_rule_to_item regexSearch dictValue subPath subIns t))
      output
  | _ => output

/-- Embeds `_process_sub_rule`. -/
def process_sub_rule (regexSearch : String → String → Bool) (parentValue : JSON)
    (subPath : String) (subIns : Instruction) (output : List (String × JSON))
    (parentPath : String) : List (String × JSON) :=
  match parentValue with
  | JSON.arr xs => process_array_sub_rule regexSearch xs subPath subIns output parentPath
  | JSON.obj entries => process_dict_sub_rule regexSearch entries subPath subIns output parentPath
  | _ => output

/-- Embeds `_process_simple_instruction`. -/
def process_simple_instruction (regexSearch : String → String → Bool)
    (item : List (String × JSON)) (path : String) (ins : Instruction)
    (output : List (String × JSON)) : List (String × JSON) :=
  match dictGet path item with
  | none => output
  | some value => dictInsert path (process_value regexSearch value ins) output

/-- Embeds `_process_mixed_instruction`. -/
def process_mixed_instruction (regexSearch : String → String → Bool)
    (item : List (String × JSON)) (path : String) (ins : Instruction)
    (output : List (String × JSON)) : List (String × JSON) :=
  match dictGet path item with
  | none => output
  | some parentValue =>
    let output1 := process_simple_instruction regexSearch item path ins output
    match ins with
    | .dirI _ _ _ _ _ subRules =>
      subRules.foldl (fun out p =>
        process_sub_rule regexSearch parentValue p.1 p.2 out path) output1
    | _ => output1

/-- Embeds `_extract_root_fields` (a non-string field spec would raise
`TypeError` on the `field in item` test; it contributes nothing). -/
def extract_root_fields (item : List (String × JSON)) (fields : List FieldSpec)
    (output : List (String × JSON)) : List (String × JSON) :=
  fields.foldl (fun out f =>
    match f with
    | .fname s =>
      match dictGet s item with
      | some v => dictInsert s v out
      | none => out
    | .fnested _ => out) output

/-- Embeds `_extract_wildcard_path`: for `"[*]."` paths, collect the suffix field
from every dict element of the prefix array (skipping missing/null
values), optionally projecting each dict result through the `fields`
directive; other paths fall back to the compiled search. -/
def extract_wildcard_path (item : List (String × JSON)) (path : String)
    (ins : Instruction) : JSON :=
  if !hasSubstr "[*]." path then jmes_search path (JSON.obj item)
  else
    let p := splitOnce path "[*]."
    match dictGet p.1 item with
    | some (JSON.arr xs) =>
      JSON.arr (xs.filterMap (fun arrayItem =>
        match arrayItem with
        | JSON.obj entries =>
          let fieldValue :=
            if hasSubstr "." p.2 then jmes_search p.2 (JSON.obj entries)
            else (dictGet p.2 entries).getD JSON.null
          match fieldValue with
          | JSON.null => none
          | fv =>
            some (match ins.fieldsOf, fv with
              | some fs, JSON.obj fentries => JSON.obj (project_field_specs fentries fs)
              | _, _ => fv)
        | _ => none))
    | _ => JSON.arr []

/-- The key-walking loop of `_assign`. -/
def assign_go (keys : List String) (value : JSON)
    (current : List (String × JSON)) : List (String × JSON) :=
  match keys with
  | [] => current
  | [k] => dictInsert k value current
  | k :: rest =>
    match dictGet k current with
    | some (JSON.obj sub) => dictInsert k (JSON.obj (assign_go rest value sub)) current
    | some _ => current
    | none => dictInsert k (JSON.obj (assign_go rest value [])) current

/-- Embeds `_assign`: strip `"[*]"`, split on dots, and write at the nested key
path, creating intermediate dicts and giving up at a non-dict. -/
def assign (output : List (String × JSON)) (path : String) (value : JSON) :
    List (String × JSON) :=
  assign_go (strSplit (strReplace path "[*]" "") ".") value output

/-- Embeds `_process_path_extraction`. -/
def process_path_extraction (regexSearch : String → String → Bool)
    (rules : List (String × Instruction)) (item : List (String × JSON))
    (path : String) (ins : Instruction) (output : List (String × JSON)) :
    List (String × JSON) :=
  if !is_compiled rules path then output
  else
    let value :=
      if hasSubstr "[*]" path then extract_wildcard_path item path ins
      else jmes_search path (JSON.obj item)
    match value with
    | JSON.null =>
      match ins with
      | .dirI _ _ _ (some d) _ _ =>
        assign output path (process_value regexSearch d ins)
      | _ => output
    | v => assign output path (process_value regexSearch v ins)

/-- Embeds `_process_rule`: the dispatch chain of the source — root-field rule, mixed
instruction, simple instruction, then standard path extraction. -/
def process_rule (regexSearch : String → String → Bool)
    (rules : List (String × Instruction)) (item : List (String × JSON))
    (path : String) (ins : Instruction) (output : List (String × JSON)) :
    List (String × JSON) :=
  if path == "@" && (ins.fieldsOf).isSome then
    extract_root_fields item ((ins.fieldsOf).getD []) output
  else if is_mixed_instruction ins then
    process_mixed_instruction regexSearch item path ins output
  else if is_dict_instruction ins && is_simple_instruction ins then
    process_simple_instruction regexSearch item path ins output
  else
    process_path_extraction regexSearch rules item path ins output

/-- Embeds `_extract_one`: fold every rule over a fresh output dict, then prune
nulls. -/
def extract_one (regexSearch : String → String → Bool)
    (rules : List (String × Instruction)) (item : List (String × JSON)) : JSON :=
  cleanup_nulls (JSON.obj (rules.foldl
    (fun out p => process_rule regexSearch rules item p.1 p.2 out) []))

/-- The `Union[Dict, List[Dict]]` argument of `extract`. -/
inductive ExtractInput where
  | single (item : List (String × JSON)) : ExtractInput
  | many (items : List (List (String × JSON))) : ExtractInput

/-- The `Union[Dict, List[Dict]]` result of `extract`. -/
inductive ExtractOutput where
  | single (record : JSON) : ExtractOutput
  | many (records : List JSON) : ExtractOutput
deriving Repr

/-- Embeds `extract` with no output model configured (`_convert_model` is then
the identity). -/
def extract (regexSearch : String → String → Bool)
    (rules : List (String × Instruction)) : ExtractInput → ExtractOutput
  | .many items => .many (items.map (extract_one regexSearch rules))
  | .single item => .single (extract_one regexSearch rules item)

/-- Calling `extract()` `n` times on the same input, collecting the
results in order. -/
def extract_times (regexSearch : String → String → Bool)
    (rules : List (String × Instruction)) (input : ExtractInput) (n : Nat) :
    List ExtractOutput :=
  (List.range n).map (fun _ => extract regexSearch rules input)

/-- Literal-substring matcher: stands in for Python `re.search` on the
literal patterns the rule sets use, when theorems need a concrete
matcher. -/
def substr_match (pat s : String) : Bool :=
  (splitFirst pat.data s.data).isSome || pat == ""

/-- Returns `true` for any value other than `JSON.null`. -/
def not_null_b : JSON → Bool
  | JSON.null => false
  | _ => true

mutual

/-- The null-erasure invariant of the spec: nowhere in the value does a
mapping bind a key to null, and nowhere does a sequence contain a null
element. -/
def no_nulls : JSON → Bool
  | JSON.obj entries => noNullsObj entries
  | JSON.arr items => noNullsArr items
  | _ => true

/-- Predicate `no_nulls` over the entries of a mapping. -/
def noNullsObj : List (String × JSON) → Bool
  | [] => true
  | (_, v) :: rest => not_null_b v && no_nulls v && noNullsObj rest

/-- Predicate `no_nulls` over the elements of a sequence. -/
def noNullsArr : List JSON → Bool
  | [] => true
  | x :: rest => not_null_b x && no_nulls x && noNullsArr rest

end

/-- The null-erasure invariant over an `extract` result of either shape. -/
def output_no_nulls : ExtractOutput → Bool
  | .single record => no_nulls record
  | .many records => records.all no_nulls

/-- Stage (a) of the sequence pipeline of spec §4.3: keep only the string
elements the regex pattern matches, when `regex` is present. -/
def spec_regex_stage (regexSearch : String → String → Bool)
    (regex : Option String) (xs : List JSON) : List JSON :=
  match regex with
  | some pat =>
    xs.filter (fun x =>
      match x with
      | JSON.str s => regexSearch pat s
      | _ => false)
  | none => xs

/-- Stage (b) of the sequence pipeline of spec §4.3: keep only the elements the
custom predicate accepts, when `filter` is present. -/
def spec_filter_stage (filt : Option (JSON → Bool)) (xs : List JSON) : List JSON :=
  match filt with
  | some f => xs.filter f
  | none => xs

/-- Stage (c) of the sequence pipeline of spec §4.3: truncate to the first N
elements, when `limit` is present. -/
def spec_limit_stage (limit : Option Int) (xs : List JSON) : List JSON :=
  match limit with
  | some n => pythonTake n xs
  | none => xs

/-- Stage (d) of the sequence pipeline of spec §4.3: project each dict element
through the field specs (nested and wildcard-suffix specs included,
non-dict elements passed through), when `fields` is present. -/
def spec_fields_stage (fields : Option (List FieldSpec)) (xs : List JSON) :
    List JSON :=
  match fields with
  | some fs => extract_fields_from_array xs fs
  | none => xs

/-! Helper lemmas. -/

theorem not_null_b_of_ne (v : JSON) (h : v ≠ JSON.null) : not_null_b v = true := by
  cases v
  case null => exact absurd rfl h
  all_goals rfl

theorem cleanupObj_cons (k : String) (v : JSON) (rest : List (String × JSON)) :
    cleanupObj ((k, v) :: rest) =
      if not_null_b v then (k, cleanup_nulls v) :: cleanupObj rest
      else cleanupObj rest := by
  cases v <;> rfl

theorem cleanupArr_cons (x : JSON) (rest : List JSON) :
    cleanupArr (x :: rest) =
      if not_null_b x then cleanup_nulls x :: cleanupArr rest
      else cleanupArr rest := by
  cases x <;> rfl

theorem cleanup_nulls_obj (entries : List (String × JSON)) :
    cleanup_nulls (JSON.obj entries) = JSON.obj (cleanupObj entries) := rfl

theorem cleanup_nulls_arr (items : List JSON) :
    cleanup_nulls (JSON.arr items) = JSON.arr (cleanupArr items) := rfl

theorem not_null_b_cleanup (v : JSON) (h : v ≠ JSON.null) :
    not_null_b (cleanup_nulls v) = true := by
  cases v
  case null => exact absurd rfl h
  all_goals rfl

theorem cleanup_nulls_no_nulls_all :
    (∀ v : JSON, no_nulls (cleanup_nulls v) = true) ∧
      (∀ items : List JSON, noNullsArr (cleanupArr items) = true) ∧
      (∀ entries : List (String × JSON), noNullsObj (cleanupObj entries) = true) := by
  apply cleanup_nulls.mutual_induct
      (motive_1 := fun v => no_nulls (cleanup_nulls v) = true)
      (motive_2 := fun items => noNullsArr (cleanupArr items) = true)
      (motive_3 := fun entries => noNullsObj (cleanupObj entries) = true)
  · intro entries ih
    exact ih
  · intro items ih
    exact ih
  · intro v hobj harr
    cases v
    case obj es => exact absurd rfl (hobj es)
    case arr xs => exact absurd rfl (harr xs)
    all_goals rfl
  · rfl
  · intro rest ih
    exact ih
  · intro rest v hv ih1 ih2
    rw [cleanupArr_cons, if_pos (not_null_b_of_ne v (fun h => hv h))]
    show (not_null_b (cleanup_nulls v) && no_nulls (cleanup_nulls v) &&
      noNullsArr (cleanupArr rest)) = true
    rw [not_null_b_cleanup v (fun h => hv h), ih1, ih2]
    rfl
  · rfl
  · intro k rest ih
    exact ih
  · intro k rest v hv ih1 ih2
    rw [cleanupObj_cons, if_pos (not_null_b_of_ne v (fun h => hv h))]
    show (not_null_b (cleanup_nulls v) && no_nulls (cleanup_nulls v) &&
      noNullsObj (cleanupObj rest)) = true
    rw [not_null_b_cleanup v (fun h => hv h), ih1, ih2]
    rfl

/-! Claim theorems. -/

/-- C4: for every input record or sequence of records and every rule set
(with no output model supplied), the result of `extract` contains no
null anywhere: no mapping binds a key to null and no sequence contains a
null element. -/
theorem null_erasure_invariant
    (regexSearch : String → String → Bool)
    (rules : List (String × Instruction)) (input : ExtractInput) :
    output_no_nulls (extract regexSearch rules input) = true := by
  cases input
  case single item =>
    exact cleanup_nulls_no_nulls_all.1 _
  case many items =>
    show (items.map (extract_one regexSearch rules)).all no_nulls = true
    rw [List.all_eq_true]
    intro x hx
    obtain ⟨item, _, rfl⟩ := List.mem_map.mp hx
    exact cleanup_nulls_no_nulls_all.1 _

/-- C10: the null pruner removes a mapping entry only when its value is
itself literally null before recursion — any entry with a non-null value
survives (with its value recursively pruned) — and consequently a key
whose value is a mapping all of whose own entries are pruned away
remains in an `extract` result, bound to an empty mapping. -/
theorem null_pruner_shallow_filter :
    (∀ (entries : List (String × JSON)) (k : String) (v : JSON),
      dictGet k entries = some v → v ≠ JSON.null →
      dictGet k (cleanupObj entries) = some (cleanup_nulls v)) ∧
      extract substr_match [("a", .boolI true)]
        (.single [("a", JSON.obj [("b", JSON.null)])]) =
        .single (JSON.obj [("a", JSON.obj [])]) := by
  constructor
  · intro entries
    induction entries with
    | nil =>
      intro k v h
      simp [dictGet] at h
    | cons p rest ih =>
      intro k v h hv
      obtain ⟨k1, v1⟩ := p
      rw [cleanupObj_cons]
      cases hk : (k1 == k) with
      | true =>
        simp [dictGet, List.find?, hk] at h
        subst h
        rw [if_pos (not_null_b_of_ne v1 hv)]
        simp [dictGet, List.find?, hk]
      | false =>
        simp [dictGet, List.find?, hk] at h
        have hrest := ih k v (by simpa [dictGet] using h) hv
        cases hb : not_null_b v1 with
        | true =>
          simpa [dictGet, List.find?, hk] using hrest
        | false =>
          simpa using hrest
  · rfl

/-- Witness for the conditional part of the pruner theorem, at a
concrete non-null entry. -/
theorem null_pruner_shallow_filter_witness :
    dictGet "x" (cleanupObj [("x", JSON.bool true)]) =
      some (cleanup_nulls (JSON.bool true)) :=
  null_pruner_shallow_filter.1 [("x", JSON.bool true)] "x" (JSON.bool true) rfl
    (fun h => JSON.noConfusion h)

/-- C1: for the mixed-instruction scenario of the spec (generalised over the
embedded name and url strings), the per-element fields projection and
the per-element wildcard sub-rule result are merged into the same list
element by positional index, not overwritten. -/
theorem mixed_instruction_merge_scenario
    (regexSearch : String → String → Bool) (nm u : String) :
    extract regexSearch
      [("data", .dirI (some [.fname "name"]) none none none none
        [("assets[*].url", .boolI true)])]
      (.single [("data", JSON.arr [JSON.obj
        [("name", JSON.str nm),
         ("assets", JSON.arr [JSON.obj [("url", JSON.str u)]])]])]) =
      .single (JSON.obj [("data", JSON.arr [JSON.obj
        [("name", JSON.str nm),
         ("assets_url", JSON.arr [JSON.str u])]])]) := rfl

/-- C2 (code bug): contrary to the claim, the `default` of a directive
instruction is never applied — any directive mapping is routed to the
mixed- or simple-instruction processors, which drop the rule whenever
the literal key is absent from the record, so the key is skipped even
though a default is supplied. -/
theorem default_directive_never_applied
    (regexSearch : String → String → Bool)
    (rules : List (String × Instruction)) (item : List (String × JSON))
    (path : String) (f : Option (List FieldSpec)) (l : Option Int)
    (r : Option String) (dv : JSON) (fp : Option (JSON → Bool))
    (sr : List (String × Instruction)) (output : List (String × JSON))
    (habs : dictGet path item = none)
    (hat : (path == "@" && f.isSome) = false) :
    process_rule regexSearch rules item path (.dirI f l r (some dv) fp sr) output
      = output := by
  unfold process_rule
  simp only [Instruction.fieldsOf, hat, Bool.false_eq_true, if_false]
  cases hm : is_mixed_instruction (.dirI f l r (some dv) fp sr) with
  | true =>
    simp only [hm, if_true, process_mixed_instruction, habs]
  | false =>
    simp only [hm, Bool.false_eq_true, if_false, is_dict_instruction,
      is_simple_instruction, Option.isSome_some, Bool.or_true, Bool.true_or,
      Bool.true_and, if_true, process_simple_instruction, habs]

/-- Witness: the defaulted rule `price ↦ {default: 0}` on the empty
record leaves the output unchanged (the claim would bind `price` to 0). -/
theorem default_directive_never_applied_witness :
    process_rule substr_match
      [("price", .dirI none none none (some (JSON.num 0)) none [])]
      [] "price" (.dirI none none none (some (JSON.num 0)) none []) [] = [] :=
  default_directive_never_applied substr_match
    [("price", .dirI none none none (some (JSON.num 0)) none [])] [] "price"
    none none none (JSON.num 0) none [] [] rfl rfl

/-- C3 counterexample: the top-level rule `assets[*].url : true` on
`{"assets": [{"url": "u1"}]}` produces the nested key `assets ↦ {url:
["u1"]}`; the claimed key `assets_url` is absent from the result. -/
theorem top_level_wildcard_naming_counterexample :
    extract substr_match [("assets[*].url", .boolI true)]
      (.single [("assets", JSON.arr [JSON.obj [("url", JSON.str "u1")]])]) =
      .single (JSON.obj [("assets", JSON.obj [("url", JSON.arr [JSON.str "u1"])])]) ∧
    dictGet "assets_url" [("assets", JSON.obj [("url", JSON.arr [JSON.str "u1"])])]
      = none :=
  ⟨rfl, rfl⟩

/-- C3 amended: a top-level wildcard rule assigns the extracted list at
the nested key path obtained by deleting `[*]` — `assets[*].url`
produces `assets ↦ {url: [...]}` and `categories[*].name` produces
`categories ↦ {name: [...]}` — while the `name`/`{array}_{suffix}`
key-naming rule applies to wildcard paths used as sub-rules of a mixed
instruction (and as field specs), not at top level. -/
theorem top_level_wildcard_nested_assignment :
    (∀ (regexSearch : String → String → Bool) (u1 u2 : String),
      extract regexSearch [("assets[*].url", .boolI true)]
        (.single [("assets", JSON.arr
          [JSON.obj [("url", JSON.str u1)], JSON.obj [("url", JSON.str u2)]])]) =
        .single (JSON.obj [("assets", JSON.obj
          [("url", JSON.arr [JSON.str u1, JSON.str u2])])])) ∧
    (∀ (regexSearch : String → String → Bool) (c1 c2 : String),
      extract regexSearch [("categories[*].name", .boolI true)]
        (.single [("categories", JSON.arr
          [JSON.obj [("name", JSON.str c1)], JSON.obj [("name", JSON.str c2)]])]) =
        .single (JSON.obj [("categories", JSON.obj
          [("name", JSON.arr [JSON.str c1, JSON.str c2])])])) ∧
    (∀ (regexSearch : String → String → Bool) (nm u c : String),
      extract regexSearch
        [("data", .dirI (some [.fname "name"]) none none none none
          [("categories[*].name", .boolI true), ("assets[*].url", .boolI true)])]
        (.single [("data", JSON.arr [JSON.obj
          [("name", JSON.str nm),
           ("categories", JSON.arr [JSON.obj [("name", JSON.str c)]]),
           ("assets", JSON.arr [JSON.obj [("url", JSON.str u)]])]])]) =
        .single (JSON.obj [("data", JSON.arr [JSON.obj
          [("name", JSON.str nm),
           ("categories", JSON.arr [JSON.str c]),
           ("assets_url", JSON.arr [JSON.str u])]])])) :=
  ⟨fun _ _ _ => rfl, fun _ _ _ => rfl, fun _ _ _ _ => rfl⟩

/-- C5: on a sequence value, the Value Processor is exactly the four-stage
pipeline of the spec in this order: regex filter, then custom filter
predicate, then limit truncation, then fields projection (non-dict
elements passing through the projection unchanged). -/
theorem array_directive_stage_order
    (regexSearch : String → String → Bool) (xs : List JSON)
    (f : Option (List FieldSpec)) (l : Option Int) (r : Option String)
    (d : Option JSON) (fp : Option (JSON → Bool))
    (sr : List (String × Instruction)) :
    process_value regexSearch (JSON.arr xs) (.dirI f l r d fp sr) =
      JSON.arr (spec_fields_stage f (spec_limit_stage l
        (spec_filter_stage fp (spec_regex_stage regexSearch r xs)))) := by
  cases f <;> cases l <;> cases r <;> cases fp <;> rfl

/-- C6: a directive with a `regex` pattern on a key resolving to a
string keeps the key bound to the unchanged string when the matcher
accepts it, and omits the key entirely (never a null value) when it
does not. -/
theorem regex_scalar_filter
    (regexSearch : String → String → Bool) (pat s k : String)
    (item : List (String × JSON))
    (h : dictGet k item = some (JSON.str s)) :
    extract_one regexSearch [(k, .dirI none none (some pat) none none [])] item =
      (if regexSearch pat s then JSON.obj [(k, JSON.str s)] else JSON.obj []) := by
  unfold extract_one
  simp only [List.foldl_cons, List.foldl_nil]
  unfold process_rule
  simp only [Instruction.fieldsOf, Option.isSome_none, Bool.and_false,
    Bool.false_eq_true, if_false, is_mixed_instruction, Bool.false_and,
    is_dict_instruction, is_simple_instruction, Option.isSome_some,
    Bool.false_or, Bool.or_false, Bool.true_and, if_true,
    process_simple_instruction, h]
  have hpv : process_value regexSearch (JSON.str s)
      (.dirI none none (some pat) none none []) =
      (if regexSearch pat s then JSON.str s else JSON.null) := by
    show (if (!regexSearch pat s) = true then JSON.null else JSON.str s) = _
    rcases Bool.eq_false_or_eq_true (regexSearch pat s) with hr | hr <;>
      rw [hr] <;> rfl
  rw [hpv]
  rcases Bool.eq_false_or_eq_true (regexSearch pat s) with hr | hr <;>
    rw [hr] <;> rfl

/-- Witness for the regex filter at the example record of the spec. -/
theorem regex_scalar_filter_witness :
    extract_one substr_match
      [("name", .dirI none none (some "Tomato") none none [])]
      [("name", JSON.str "Cherry Tomatoes")] =
      JSON.obj [("name", JSON.str "Cherry Tomatoes")] :=
  (regex_scalar_filter substr_match "Tomato" "Cherry Tomatoes" "name"
    [("name", JSON.str "Cherry Tomatoes")] rfl).trans rfl

/-- C7 counterexample: the top-level wildcard rule `assets[*].url : true`
on the empty record (array field absent) still produces a key for the
rule, bound to a nested empty list. -/
theorem absent_wildcard_path_emits_key_counterexample :
    extract substr_match [("assets[*].url", .boolI true)] (.single []) =
      .single (JSON.obj [("assets", JSON.obj [("url", JSON.arr [])])]) ∧
    dictMem "assets" [("assets", JSON.obj [("url", JSON.arr [])])] = true :=
  ⟨rfl, rfl⟩

/-- C7 amended: a rule whose path is absent produces no key and no
failure — for every non-wildcard rule (any instruction shape: the
mixed-parent, simple-instruction and path-extraction routes all drop the
rule) and for every root field absent from the record; top-level
wildcard array rules are the exception, producing their nested key bound
to an empty list even when the array is absent. -/
theorem absent_path_omission_except_wildcard :
    (∀ (regexSearch : String → String → Bool)
        (rules : List (String × Instruction)) (item : List (String × JSON))
        (path : String) (ins : Instruction) (output : List (String × JSON)),
      path ≠ "@" → hasSubstr "[*]" path = false →
      dictGet path item = none →
      jmes_search path (JSON.obj item) = JSON.null →
      process_rule regexSearch rules item path ins output = output) ∧
    (∀ (item : List (String × JSON)) (fields : List FieldSpec)
        (output : List (String × JSON)),
      (∀ s : String, FieldSpec.fname s ∈ fields → dictGet s item = none) →
      extract_root_fields item fields output = output) := by
  constructor
  · intro rsf rules item path ins output hne hw habs hjm
    unfold process_rule
    have hbe : (path == "@") = false := beq_eq_false_iff_ne.mpr hne
    simp only [hbe, Bool.false_and, Bool.false_eq_true, if_false]
    cases ins with
    | dirI f l r d fp sr =>
      cases hm : is_mixed_instruction (.dirI f l r d fp sr) with
      | true => simp only [if_true, process_mixed_instruction, habs]
      | false =>
        simp only [Bool.false_eq_true, if_false]
        cases hs : is_simple_instruction (.dirI f l r d fp sr) with
        | true =>
          simp only [is_dict_instruction, Bool.true_and, if_true,
            process_simple_instruction, habs]
        | false =>
          have hd : d = none := by
            cases d with
            | none => rfl
            | some dv => simp [is_simple_instruction] at hs
          subst hd
          simp only [is_dict_instruction, Bool.true_and, Bool.false_eq_true,
            if_false, process_path_extraction, hw, hjm]
          cases hc : is_compiled rules path <;> simp [hw, hjm]
    | boolI b =>
      simp only [is_mixed_instruction, Bool.false_eq_true, if_false,
        is_dict_instruction, Bool.false_and, process_path_extraction]
      cases hc : is_compiled rules path <;> simp [hw, hjm]
    | strI s =>
      simp only [is_mixed_instruction, Bool.false_eq_true, if_false,
        is_dict_instruction, Bool.false_and, process_path_extraction]
      cases hc : is_compiled rules path <;> simp [hw, hjm]
    | listI fs =>
      simp only [is_mixed_instruction, Bool.false_eq_true, if_false,
        is_dict_instruction, Bool.false_and, process_path_extraction]
      cases hc : is_compiled rules path <;> simp [hw, hjm]
  · intro item fields
    induction fields with
    | nil => intro output habs; rfl
    | cons hd rest ih =>
      intro output habs
      cases hd with
      | fname s =>
        have hs := habs s (by simp)
        have hstep : extract_root_fields item (FieldSpec.fname s :: rest) output =
            extract_root_fields item rest output := by
          simp [extract_root_fields, hs]
        rw [hstep]
        exact ih output (fun t ht => habs t (List.mem_cons_of_mem _ ht))
      | fnested es =>
        have hstep : extract_root_fields item (FieldSpec.fnested es :: rest) output =
            extract_root_fields item rest output := by
          simp [extract_root_fields]
        rw [hstep]
        exact ih output (fun t ht => habs t (List.mem_cons_of_mem _ ht))

/-- Witness: an absent simple path produces no key. -/
theorem absent_path_omission_witness :
    process_rule substr_match [] [] "price" (.boolI true) [] = [] :=
  absent_path_omission_except_wildcard.1 substr_match [] [] "price" (.boolI true) []
    (by decide) rfl rfl rfl

/-- C8: a sequence input maps single-record extraction over the
elements, preserving length and order; a single mapping input yields a
single mapping result, never wrapped in a sequence. -/
theorem extract_shape_preservation
    (regexSearch : String → String → Bool)
    (rules : List (String × Instruction))
    (items : List (List (String × JSON))) (item : List (String × JSON)) :
    extract regexSearch rules (.many items) =
      .many (items.map (extract_one regexSearch rules)) ∧
    (items.map (extract_one regexSearch rules)).length = items.length ∧
    extract regexSearch rules (.single item) =
      .single (extract_one regexSearch rules item) :=
  ⟨rfl, by simp, rfl⟩

/-- C9: calling `extract()` any number of times on the same input with
the same constructed extractor yields an identical output every time —
no state mutated by one call changes a later one. -/
theorem extract_repeat_deterministic
    (regexSearch : String → String → Bool)
    (rules : List (String × Instruction)) (input : ExtractInput)
    (n i j : Nat) (hi : i < n) (hj : j < n) :
    (extract_times regexSearch rules input n)[i]? =
      (extract_times regexSearch rules input n)[j]? := by
  simp [extract_times, hi, hj]

/-- Witness for the repeated-call determinism at a concrete run. -/
theorem extract_repeat_deterministic_witness :
    (extract_times substr_match [] (.single []) 3)[0]? =
      (extract_times substr_match [] (.single []) 3)[2]? :=
  extract_repeat_deterministic substr_match [] (.single []) 3 0 2
    (by decide) (by decide)

end JSONExtractor
